import Mathlib

/-! Snowflake identifier generator.

A shallow embedding of `snowflake.go`: the bit-field constants, the generator
state, the packing of a state into a 64-bit identifier, the constructor and the
`Next` operation.

Machine integers are natural numbers with explicit reduction modulo `2^32` or
`2^64` wherever the Go arithmetic can wrap.  The wall clock is the only input
of `Next`: it is modelled as the list of values that the successive calls of
`timestamp()` return, so a call of `timestamp()` removes the head of that list.
A list that runs out stands for a clock that is never read again, and an
operation that needs a further reading then has no result (`none`).
-/

namespace SnowflakeGo

/-! ## Constants -/

/-- Width of the worker-id field (`WorkerIdBits = 10`). -/
def WorkerIdBits : Nat := 10

/-- Worker-id mask, `-1 ^ (-1 << 10)` on untyped integer constants. -/
def MaxWorkerId : Nat := (Int.xor (-1) ((-1 : Int) <<< (10 : Int))).toNat

/-- Width of the sequence field (`SequenceBits = 12`). -/
def SequenceBits : Nat := 12

/-- Sequence mask, `-1 ^ (-1 << 12)` on untyped integer constants. -/
def MaxSequence : Nat := (Int.xor (-1) ((-1 : Int) <<< (12 : Int))).toNat

/-- Number of values of a `uint32`. -/
def u32 : Nat := 2 ^ 32

/-- Number of values of a `uint64`. -/
def u64 : Nat := 2 ^ 64

/-! ## Generator state -/

/-- The fields of `type Snowflake struct` that carry data (the mutex is what
serialises the calls and has no value of its own). -/
structure Snowflake where
  lastTimestamp : Nat
  workerId : Nat
  sequence : Nat
  deriving DecidableEq, Repr

/-- The two errors built with `fmt.Errorf`, with the values they print. -/
inductive Error where
  | invalidTimestamp (ts : Nat) (sf : Snowflake)
  | invalidWorkerId (workerId : Nat)
  deriving DecidableEq, Repr

/-- Method `(sf *Snowflake) uint64()`: the state packed into an identifier,
`(lastTimestamp << 22) | (uint64(workerId) << 12) | uint64(sequence)`, every
shift taken in 64-bit unsigned arithmetic. -/
def Snowflake.uint64 (sf : Snowflake) : Nat :=
  ((sf.lastTimestamp <<< (WorkerIdBits + SequenceBits)) % u64) |||
    ((sf.workerId <<< SequenceBits) % u64) |||
    sf.sequence

/-! ## Clock -/

/-- Function `timestamp()`: the next reading of the millisecond clock, and the
readings that remain. -/
def timestamp : List Nat → Option (Nat × List Nat)
  | [] => none
  | t :: rest => some (t, rest)

/-- Function `tilNextMillis(ts)`: read the clock once, then again for as long
as the reading is `<= ts`; the result is the first reading above `ts`. -/
def tilNextMillis (ts : Nat) : List Nat → Option (Nat × List Nat)
  | [] => none
  | i :: rest => if i ≤ ts then tilNextMillis ts rest else some (i, rest)

/-! ## Operations -/

/-- Function `NewSnowflake(workerId)`: the pair `(generator, error)`. -/
def NewSnowflake (workerId : Nat) : Option Snowflake × Option Error :=
  if workerId < 0 ∨ workerId > MaxWorkerId then
    (none, some (Error.invalidWorkerId workerId))
  else
    (some { lastTimestamp := 0, workerId := workerId, sequence := 0 }, none)

/-- The first half of `Next`: read the clock and update `sequence`, waiting for
the next millisecond when the sequence wraps.  Yields the timestamp to use, the
state and the remaining clock. -/
def Next.advance (sf : Snowflake) (clock : List Nat) :
    Option (Nat × Snowflake × List Nat) :=
  match timestamp clock with
  | none => none
  | some (ts, clock1) =>
    if ts = sf.lastTimestamp then
      let sf1 : Snowflake := { sf with sequence := ((sf.sequence + 1) % u32) &&& MaxSequence }
      if sf1.sequence = 0 then
        match tilNextMillis ts clock1 with
        | none => none
        | some (ts2, clock2) => some (ts2, sf1, clock2)
      else
        some (ts, sf1, clock1)
    else
      some (ts, { sf with sequence := 0 }, clock1)

/-- Method `(sf *Snowflake) Next()`: the returned pair `(identifier, error)`,
the state after the call and the clock readings left. -/
def Next (sf : Snowflake) (clock : List Nat) :
    Option ((Nat × Option Error) × Snowflake × List Nat) :=
  match Next.advance sf clock with
  | none => none
  | some (ts, sf2, clock2) =>
    if ts < sf2.lastTimestamp then
      some ((0, some (Error.invalidTimestamp ts sf2)), sf2, clock2)
    else
      let sf3 : Snowflake := { sf2 with lastTimestamp := ts }
      some ((sf3.uint64, none), sf3, clock2)

/-- Function `DefaultWorkId()` after the hash of the hardware addresses, or the
random fallback, has produced the 32-bit value `h`. -/
def DefaultWorkId (h : Nat) : Nat :=
  (((h % u32) % MaxWorkerId) % u32) &&& MaxWorkerId

/-- Function `Default()`: `NewSnowflake(DefaultWorkId())`, for the 32-bit value
`h` that the hash or the random fallback produced. -/
def Default (h : Nat) : Option Snowflake × Option Error :=
  NewSnowflake (DefaultWorkId h)

/-- Successive calls: `run sf clock n` performs `n` calls of `Next`, each on
the state and the clock left by the one before, and collects what they
returned, oldest first. -/
def run (sf : Snowflake) (clock : List Nat) :
    Nat → Option (List (Nat × Option Error) × Snowflake × List Nat)
  | 0 => some ([], sf, clock)
  | n + 1 =>
    match Next sf clock with
    | none => none
    | some (r, sf1, clock1) =>
      match run sf1 clock1 n with
      | none => none
      | some (rs, sf2, clock2) => some (r :: rs, sf2, clock2)

/-- The identifiers of the calls that returned no error. -/
def issued (rs : List (Nat × Option Error)) : List Nat :=
  rs.filterMap fun r => if r.2 = none then some r.1 else none

/-- Timestamp field of an identifier. -/
def idTimestamp (id : Nat) : Nat := id >>> (WorkerIdBits + SequenceBits)

/-- Worker-id field of an identifier. -/
def idWorkerId (id : Nat) : Nat := (id >>> SequenceBits) &&& MaxWorkerId

/-- Sequence field of an identifier. -/
def idSequence (id : Nat) : Nat := id &&& MaxSequence

/-! ## Constants and packing, arithmetically -/

theorem MaxWorkerId_eq : MaxWorkerId = 1023 := by decide

theorem MaxSequence_eq : MaxSequence = 4095 := by decide

/-- With in-range worker id and sequence the three fields do not overlap, so
the packed identifier is a sum; only the timestamp is cut, to 42 bits. -/
theorem uint64_eq_sum (t w s : Nat) (hw : w ≤ 1023) (hs : s ≤ 4095) :
    Snowflake.uint64 ⟨t, w, s⟩ = (t % 2 ^ 42) * 2 ^ 22 + w * 2 ^ 12 + s := by
  have h1 : (t <<< (WorkerIdBits + SequenceBits)) % u64 = 2 ^ 22 * (t % 2 ^ 42) := by
    simp only [WorkerIdBits, SequenceBits, u64, Nat.shiftLeft_eq]
    omega
  have h2 : (w <<< SequenceBits) % u64 = 2 ^ 12 * w := by
    simp only [SequenceBits, u64, Nat.shiftLeft_eq]
    omega
  have h3 : 2 ^ 12 * w < 2 ^ 22 := by omega
  have h4 : s < 2 ^ 12 := by omega
  simp only [Snowflake.uint64, h1, h2]
  rw [← Nat.mul_add_lt_is_or h3]
  have h5 : 2 ^ 22 * (t % 2 ^ 42) + 2 ^ 12 * w = 2 ^ 12 * (2 ^ 10 * (t % 2 ^ 42) + w) := by
    omega
  rw [h5, ← Nat.mul_add_lt_is_or h4]
  omega

/-- The sequence increment `(sequence + 1) & MaxSequence` below the mask. -/
theorem seq_incr_eq (s : Nat) (hs : s < 4095) : ((s + 1) % u32) &&& MaxSequence = s + 1 := by
  have h : MaxSequence = 2 ^ 12 - 1 := by decide
  rw [h, Nat.and_pow_two_sub_one_eq_mod]
  simp only [u32]
  omega

/-- The sequence increment at the mask wraps to zero. -/
theorem seq_incr_wrap : ((4095 + 1) % u32) &&& MaxSequence = 0 := by decide

/-- The sequence stays within its twelve bits whatever it was before. -/
theorem seq_incr_le (s : Nat) : ((s + 1) % u32) &&& MaxSequence ≤ 4095 := by
  have h : MaxSequence = 2 ^ 12 - 1 := by decide
  rw [h, Nat.and_pow_two_sub_one_eq_mod]
  omega

/-! ## The busy-wait -/

/-- The busy-wait skips every reading that is not above `ts` and stops at the
first one that is. -/
theorem tilNextMillis_skip (ts x : Nat) (pre post : List Nat)
    (hpre : ∀ y ∈ pre, y ≤ ts) (hx : ts < x) :
    tilNextMillis ts (pre ++ x :: post) = some (x, post) := by
  induction pre with
  | nil => simp [tilNextMillis, Nat.not_le.mpr hx]
  | cons y ys ih =>
    have hy : y ≤ ts := hpre y (List.mem_cons_self y ys)
    have hys : ∀ z ∈ ys, z ≤ ts := fun z hz => hpre z (List.mem_cons_of_mem y hz)
    simp [tilNextMillis, hy, ih hys]

/-- Whatever the busy-wait returns is the first reading above `ts`. -/
theorem tilNextMillis_some (ts t : Nat) (clock rest : List Nat)
    (h : tilNextMillis ts clock = some (t, rest)) :
    ts < t ∧ ∃ pre, clock = pre ++ t :: rest ∧ ∀ y ∈ pre, y ≤ ts := by
  induction clock with
  | nil => simp [tilNextMillis] at h
  | cons i is ih =>
    by_cases hi : i ≤ ts
    · simp only [tilNextMillis, hi, if_true] at h
      obtain ⟨hlt, pre, hpre, hall⟩ := ih h
      refine ⟨hlt, i :: pre, by simp [hpre], ?_⟩
      intro y hy
      rcases List.mem_cons.mp hy with rfl | hy
      · exact hi
      · exact hall y hy
    · simp only [tilNextMillis, hi, if_false, Option.some.injEq, Prod.mk.injEq] at h
      obtain ⟨rfl, rfl⟩ := h
      exact ⟨Nat.lt_of_not_le hi, [], by simp, by simp⟩

/-- The busy-wait ends as soon as the clock holds a reading above `ts`. -/
theorem tilNextMillis_isSome (ts : Nat) (clock : List Nat) (h : ∃ x ∈ clock, ts < x) :
    ∃ t rest, tilNextMillis ts clock = some (t, rest) := by
  induction clock with
  | nil => simp at h
  | cons i is ih =>
    by_cases hi : i ≤ ts
    · obtain ⟨x, hx, hlt⟩ := h
      rcases List.mem_cons.mp hx with rfl | hx
      · omega
      · obtain ⟨t, rest, ht⟩ := ih ⟨x, hx, hlt⟩
        exact ⟨t, rest, by simp [tilNextMillis, hi, ht]⟩
    · exact ⟨i, is, by simp [tilNextMillis, hi]⟩

/-! ## The cases of `Next` -/

/-- A reading below `lastTimestamp`: the error, after `sequence` was reset. -/
theorem Next_regress (sf : Snowflake) (r : Nat) (rest : List Nat) (h : r < sf.lastTimestamp) :
    Next sf (r :: rest) =
      some ((0, some (Error.invalidTimestamp r ⟨sf.lastTimestamp, sf.workerId, 0⟩)),
        ⟨sf.lastTimestamp, sf.workerId, 0⟩, rest) := by
  have hne : r ≠ sf.lastTimestamp := Nat.ne_of_lt h
  simp [Next, Next.advance, timestamp, hne, h]

/-- A reading above `lastTimestamp`: a new millisecond, sequence zero. -/
theorem Next_forward (sf : Snowflake) (r : Nat) (rest : List Nat) (h : sf.lastTimestamp < r) :
    Next sf (r :: rest) =
      some ((Snowflake.uint64 ⟨r, sf.workerId, 0⟩, none), ⟨r, sf.workerId, 0⟩, rest) := by
  have hne : r ≠ sf.lastTimestamp := Nat.ne_of_gt h
  have hnl : ¬ r < sf.lastTimestamp := Nat.not_lt.mpr (Nat.le_of_lt h)
  simp [Next, Next.advance, timestamp, hne, hnl]

/-- A reading equal to `lastTimestamp` while the sequence does not wrap. -/
theorem Next_same (sf : Snowflake) (rest : List Nat)
    (h : ((sf.sequence + 1) % u32) &&& MaxSequence ≠ 0) :
    Next sf (sf.lastTimestamp :: rest) =
      some ((Snowflake.uint64
          ⟨sf.lastTimestamp, sf.workerId, ((sf.sequence + 1) % u32) &&& MaxSequence⟩, none),
        ⟨sf.lastTimestamp, sf.workerId, ((sf.sequence + 1) % u32) &&& MaxSequence⟩, rest) := by
  simp [Next, Next.advance, timestamp, h]

/-- A reading equal to `lastTimestamp` when the sequence wraps: the call waits
for the first reading above it. -/
theorem Next_wrap (sf : Snowflake) (x : Nat) (pre post : List Nat)
    (h : ((sf.sequence + 1) % u32) &&& MaxSequence = 0)
    (hpre : ∀ y ∈ pre, y ≤ sf.lastTimestamp) (hx : sf.lastTimestamp < x) :
    Next sf (sf.lastTimestamp :: (pre ++ x :: post)) =
      some ((Snowflake.uint64 ⟨x, sf.workerId, 0⟩, none), ⟨x, sf.workerId, 0⟩, post) := by
  have hnl : ¬ x < sf.lastTimestamp := Nat.not_lt.mpr (Nat.le_of_lt hx)
  simp [Next, Next.advance, timestamp, h, tilNextMillis_skip _ _ _ _ hpre hx, hnl]

/-- A reading equal to `lastTimestamp` when the sequence wraps and the clock
never again shows a later reading: the call does not return. -/
theorem Next_wrap_none (sf : Snowflake) (rest : List Nat)
    (h : ((sf.sequence + 1) % u32) &&& MaxSequence = 0)
    (hrest : tilNextMillis sf.lastTimestamp rest = none) :
    Next sf (sf.lastTimestamp :: rest) = none := by
  simp [Next, Next.advance, timestamp, h, hrest]

/-- A reading equal to `lastTimestamp` when the sequence wraps: whatever the
busy-wait returns becomes the timestamp, and the call succeeds. -/
theorem Next_wrap_some (sf : Snowflake) (t : Nat) (rest rest1 : List Nat)
    (h : ((sf.sequence + 1) % u32) &&& MaxSequence = 0)
    (hrest : tilNextMillis sf.lastTimestamp rest = some (t, rest1)) :
    Next sf (sf.lastTimestamp :: rest) =
      some ((Snowflake.uint64 ⟨t, sf.workerId, 0⟩, none), ⟨t, sf.workerId, 0⟩, rest1) := by
  have hlt := (tilNextMillis_some _ _ _ _ hrest).1
  have hnl : ¬ t < sf.lastTimestamp := Nat.not_lt.mpr (Nat.le_of_lt hlt)
  simp [Next, Next.advance, timestamp, h, hrest, hnl]

/-- Every call that starts with a reading not below `lastTimestamp` and returns,
returns without error, the identifier being the packed new state. -/
theorem Next_of_le (sf : Snowflake) (r : Nat) (rest : List Nat) (hr : sf.lastTimestamp ≤ r)
    (out : (Nat × Option Error) × Snowflake × List Nat) (h : Next sf (r :: rest) = some out) :
    out.1.2 = none ∧ out.1.1 = out.2.1.uint64 ∧ out.2.1.workerId = sf.workerId ∧
      out.2.1.sequence ≤ 4095 ∧
      ((out.2.1.lastTimestamp = sf.lastTimestamp ∧ out.2.1.sequence ≠ 0 ∧
          out.2.1.sequence = ((sf.sequence + 1) % u32) &&& MaxSequence) ∨
        (sf.lastTimestamp < out.2.1.lastTimestamp ∧ out.2.1.sequence = 0)) ∧
      ((out.2.1.lastTimestamp = r ∧ out.2.2 = rest) ∨
        ∃ pre, rest = pre ++ out.2.1.lastTimestamp :: out.2.2) := by
  rcases Nat.lt_or_eq_of_le hr with hlt | heq
  · rw [Next_forward sf r rest hlt] at h
    cases h
    exact ⟨rfl, rfl, rfl, by simp, Or.inr ⟨hlt, rfl⟩, Or.inl ⟨rfl, rfl⟩⟩
  · subst heq
    by_cases hw : ((sf.sequence + 1) % u32) &&& MaxSequence = 0
    · cases hrest : tilNextMillis sf.lastTimestamp rest with
      | none => rw [Next_wrap_none sf rest hw hrest] at h; cases h
      | some p =>
        obtain ⟨t, rest1⟩ := p
        rw [Next_wrap_some sf t rest rest1 hw hrest] at h
        cases h
        obtain ⟨hlt, pre, hpre, _⟩ := tilNextMillis_some _ _ _ _ hrest
        exact ⟨rfl, rfl, rfl, by simp, Or.inr ⟨hlt, rfl⟩, Or.inr ⟨pre, hpre⟩⟩
    · rw [Next_same sf rest hw] at h
      cases h
      exact ⟨rfl, rfl, rfl, seq_incr_le _, Or.inl ⟨rfl, hw, rfl⟩, Or.inl ⟨rfl, rfl⟩⟩

/-! ## Field extraction -/

/-- The sequence field of a packed in-range state is its sequence. -/
theorem idSequence_uint64 (t w q : Nat) (hw : w ≤ 1023) (hq : q ≤ 4095) :
    idSequence (Snowflake.uint64 ⟨t, w, q⟩) = q := by
  have h : MaxSequence = 2 ^ 12 - 1 := by decide
  rw [idSequence, uint64_eq_sum t w q hw hq, h, Nat.and_pow_two_sub_one_eq_mod]
  omega

/-- The timestamp field of a packed in-range state is its timestamp, cut to
42 bits. -/
theorem idTimestamp_uint64 (t w q : Nat) (hw : w ≤ 1023) (hq : q ≤ 4095) :
    idTimestamp (Snowflake.uint64 ⟨t, w, q⟩) = t % 2 ^ 42 := by
  rw [idTimestamp, uint64_eq_sum t w q hw hq, Nat.shiftRight_eq_div_pow]
  simp only [WorkerIdBits, SequenceBits]
  omega

/-- The worker-id field of a packed in-range state is its worker id. -/
theorem idWorkerId_uint64 (t w q : Nat) (hw : w ≤ 1023) (hq : q ≤ 4095) :
    idWorkerId (Snowflake.uint64 ⟨t, w, q⟩) = w := by
  have h : MaxWorkerId = 2 ^ 10 - 1 := by decide
  rw [idWorkerId, uint64_eq_sum t w q hw hq, h, Nat.and_pow_two_sub_one_eq_mod,
    Nat.shiftRight_eq_div_pow]
  simp only [SequenceBits]
  omega

/-- A packed in-range state fits in 64 bits. -/
theorem uint64_lt (t w q : Nat) (hw : w ≤ 1023) (hq : q ≤ 4095) :
    Snowflake.uint64 ⟨t, w, q⟩ < 2 ^ 64 := by
  rw [uint64_eq_sum t w q hw hq]
  omega

/-! ## Successive calls -/

/-- A call on an exhausted clock does not return. -/
theorem Next_nil (sf : Snowflake) : Next sf [] = none := by
  simp [Next, Next.advance, timestamp]

/-- Unfolding of `run` at one more call. -/
theorem run_succ (sf : Snowflake) (clock : List Nat) (n : Nat) :
    run sf clock (n + 1) =
      (Next sf clock).bind fun p =>
        (run p.2.1 p.2.2 n).map fun q => (p.1 :: q.1, q.2.1, q.2.2) := by
  cases h : Next sf clock with
  | none => simp [run, h]
  | some p =>
    obtain ⟨r, sf1, clock1⟩ := p
    cases h2 : run sf1 clock1 n with
    | none => simp [run, h, h2]
    | some q =>
      obtain ⟨rs, sf2, clock2⟩ := q
      simp [run, h, h2]

/-- Calls compose: `m + n` calls are `m` calls followed by `n` calls. -/
theorem run_add (m n : Nat) : ∀ (sf : Snowflake) (clock : List Nat),
    run sf clock (m + n) =
      (run sf clock m).bind fun p =>
        (run p.2.1 p.2.2 n).map fun q => (p.1 ++ q.1, q.2.1, q.2.2) := by
  induction m with
  | zero =>
    intro sf clock
    cases h : run sf clock n with
    | none => simp [run, h]
    | some q => simp [run, h]
  | succ m ih =>
    intro sf clock
    rw [Nat.add_right_comm, run_succ, run_succ]
    cases h : Next sf clock with
    | none => simp
    | some p =>
      simp only [Option.some_bind, ih]
      cases h2 : run p.2.1 p.2.2 m with
      | none => simp
      | some q =>
        cases h3 : run q.2.1 q.2.2 n with
        | none => simp [h3]
        | some q2 => simp [h3]

/-- Calls within one millisecond: from sequence `q`, `k` calls that all read
`lastTimestamp` return the sequences `q + 1, ..., q + k` as long as the
sequence does not reach the mask. -/
theorem run_same (t w : Nat) (rest : List Nat) : ∀ (k q : Nat), q + k ≤ 4095 →
    run ⟨t, w, q⟩ (List.replicate k t ++ rest) k =
      some ((List.range k).map (fun i => (Snowflake.uint64 ⟨t, w, q + 1 + i⟩, none)),
        ⟨t, w, q + k⟩, rest) := by
  intro k
  induction k with
  | zero => intro q _; simp [run]
  | succ k ih =>
    intro q hq
    have hinc := seq_incr_eq q (by omega)
    have hne : ((q + 1) % u32) &&& MaxSequence ≠ 0 := by rw [hinc]; omega
    have hnext := Next_same ⟨t, w, q⟩ (List.replicate k t ++ rest) hne
    simp only [hinc] at hnext
    rw [run_succ, List.replicate_succ, List.cons_append, hnext]
    simp only [Option.some_bind]
    rw [ih (q + 1) (by omega), List.range_succ_eq_map]
    simp only [Option.map_some', List.map_cons, List.map_map, Nat.add_zero]
    have hst : q + 1 + k = q + (k + 1) := by omega
    have hl : List.map (fun i => ((Snowflake.uint64 ⟨t, w, q + 1 + 1 + i⟩, none) :
          Nat × Option Error)) (List.range k) =
        List.map ((fun i => ((Snowflake.uint64 ⟨t, w, q + 1 + i⟩, none) :
          Nat × Option Error)) ∘ Nat.succ) (List.range k) := by
      refine List.map_congr_left ?_
      intro a _
      have e : q + 1 + 1 + a = q + 1 + Nat.succ a := by omega
      simp only [Function.comp_def, e]
    rw [hl, hst]

/-- One full millisecond from a state whose `lastTimestamp` is below `t`: 4096
calls reading `t` return the sequences 0 to 4095, and one more call reading `t`
waits for the first later reading `x` and returns sequence 0 at `x`. -/
theorem run_rollover (sf : Snowflake) (t x : Nat) (pre post : List Nat)
    (ht : sf.lastTimestamp < t) (hpre : ∀ y ∈ pre, y ≤ t) (hx : t < x) :
    run sf (List.replicate 4097 t ++ (pre ++ x :: post)) 4097 =
      some ((List.range 4096).map (fun i => (Snowflake.uint64 ⟨t, sf.workerId, i⟩, none)) ++
          [(Snowflake.uint64 ⟨x, sf.workerId, 0⟩, none)],
        ⟨x, sf.workerId, 0⟩, post) := by
  have hclock : List.replicate 4097 t ++ (pre ++ x :: post) =
      t :: (List.replicate 4095 t ++ (t :: (pre ++ x :: post))) := by
    have h1 : (4097 : Nat) = 4095 + 1 + 1 := rfl
    rw [h1, List.replicate_succ, List.replicate_succ', List.cons_append, List.append_assoc]
    rfl
  have hn : (4097 : Nat) = (4095 + 1) + 1 := rfl
  have hlast := Next_wrap ⟨t, sf.workerId, 4095⟩ x pre post seq_incr_wrap hpre hx
  rw [hclock, hn, run_succ, Next_forward sf t _ ht]
  simp only [Option.some_bind]
  rw [run_add 4095 1, run_same t sf.workerId _ 4095 0 (by omega)]
  simp only [Option.some_bind, Option.map_some']
  have hone : (1 : Nat) = 0 + 1 := rfl
  rw [hone, run_succ, hlast]
  simp only [Option.some_bind, Option.map_some', run]
  have hr : List.range (4095 + 1) = 0 :: List.map Nat.succ (List.range 4095) :=
    List.range_succ_eq_map 4095
  rw [hr]
  simp only [List.map_cons, List.map_map, List.cons_append]
  have hl : List.map (fun i => ((Snowflake.uint64 ⟨t, sf.workerId, 0 + (0 + 1) + i⟩, none) :
        Nat × Option Error)) (List.range 4095) =
      List.map ((fun i => ((Snowflake.uint64 ⟨t, sf.workerId, i⟩, none) :
        Nat × Option Error)) ∘ Nat.succ) (List.range 4095) := by
    refine List.map_congr_left ?_
    intro a _
    have e : 0 + (0 + 1) + a = Nat.succ a := by omega
    simp only [Function.comp_def, e]
  rw [hl]

/-! ## Order of the identifiers -/

/-- A call that returns without error on an in-range state, all readings being
below `2^42`, returns the packed new state; that state is in range and packs
to more than the old one. -/
theorem Next_ok_increases (sf sf1 : Snowflake) (clock clock1 : List Nat) (id : Nat)
    (hw : sf.workerId ≤ 1023) (hs : sf.sequence ≤ 4095) (ht : sf.lastTimestamp < 2 ^ 42)
    (hc : ∀ x ∈ clock, x < 2 ^ 42)
    (h : Next sf clock = some ((id, none), sf1, clock1)) :
    id = sf1.uint64 ∧ sf.uint64 < sf1.uint64 ∧ sf1.uint64 < 2 ^ 64 ∧ sf1.workerId ≤ 1023 ∧
      sf1.sequence ≤ 4095 ∧ sf1.lastTimestamp < 2 ^ 42 ∧ ∀ x ∈ clock1, x < 2 ^ 42 := by
  cases clock with
  | nil => rw [Next_nil] at h; cases h
  | cons r rest =>
    by_cases hr : r < sf.lastTimestamp
    · rw [Next_regress sf r rest hr] at h
      cases h
    · have hle := Nat.le_of_not_lt hr
      obtain ⟨_, hid, hwk, hsq, hcase, hclk⟩ := Next_of_le sf r rest hle _ h
      obtain ⟨t, w, q⟩ := sf
      obtain ⟨t1, w1, q1⟩ := sf1
      simp only at hid hwk hsq hcase hclk hw hs ht hle
      subst hwk
      have hr42 : r < 2 ^ 42 := hc r (List.mem_cons_self r rest)
      have ht1 : t1 < 2 ^ 42 := by
        rcases hclk with ⟨h1, _⟩ | ⟨pre, hpre⟩
        · omega
        · exact hc t1 (by simp [hpre])
      have hc1 : ∀ x ∈ clock1, x < 2 ^ 42 := by
        intro x hx
        rcases hclk with ⟨_, h2⟩ | ⟨pre, hpre⟩
        · exact hc x (by simp [← h2, hx])
        · exact hc x (by simp [hpre, hx])
      have hm : MaxSequence = 2 ^ 12 - 1 := by decide
      refine ⟨hid, ?_, uint64_lt t1 w1 q1 hw hsq, hw, hsq, ht1, hc1⟩
      rw [uint64_eq_sum t w1 q hw hs, uint64_eq_sum t1 w1 q1 hw hsq]
      rcases hcase with ⟨h1, h2, h3⟩ | ⟨h1, h2⟩
      · simp only [hm, Nat.and_pow_two_sub_one_eq_mod, u32] at h3
        omega
      · omega

/-- Calls that all return without error, on an in-range state and with all
readings below `2^42`, return identifiers in strictly increasing order, all
above the packed starting state and below `2^64`. -/
theorem run_ok_increasing : ∀ (n : Nat) (sf sf2 : Snowflake) (clock clock2 : List Nat)
    (rs : List (Nat × Option Error)),
    sf.workerId ≤ 1023 → sf.sequence ≤ 4095 → sf.lastTimestamp < 2 ^ 42 →
    (∀ x ∈ clock, x < 2 ^ 42) → run sf clock n = some (rs, sf2, clock2) →
    (∀ r ∈ rs, r.2 = none) →
    (rs.map Prod.fst).Pairwise (· < ·) ∧ ∀ r ∈ rs, sf.uint64 < r.1 ∧ r.1 < 2 ^ 64 := by
  intro n
  induction n with
  | zero =>
    intro sf sf2 clock clock2 rs _ _ _ _ h _
    simp only [run, Option.some.injEq, Prod.mk.injEq] at h
    obtain ⟨rfl, _, _⟩ := h
    simp
  | succ n ih =>
    intro sf sf2 clock clock2 rs hw hs ht hc h hok
    rw [run_succ] at h
    cases hN : Next sf clock with
    | none => simp [hN] at h
    | some p =>
      obtain ⟨⟨id, e⟩, sf1, clock1⟩ := p
      cases hR : run sf1 clock1 n with
      | none => simp [hN, hR] at h
      | some q =>
        obtain ⟨rs1, sf3, clock3⟩ := q
        simp only [hN, hR, Option.some_bind, Option.map_some', Option.some.injEq,
          Prod.mk.injEq] at h
        obtain ⟨rfl, rfl, rfl⟩ := h
        have he : e = none := hok (id, e) (List.mem_cons_self _ _)
        subst he
        obtain ⟨hid, hlt, h64, hw1, hs1, ht1, hc1⟩ :=
          Next_ok_increases sf sf1 clock clock1 id hw hs ht hc hN
        obtain ⟨hpw, hall⟩ := ih sf1 sf3 clock1 clock3 rs1 hw1 hs1 ht1 hc1 hR
          (fun r hr => hok r (List.mem_cons_of_mem _ hr))
        refine ⟨?_, ?_⟩
        · rw [List.map_cons, List.pairwise_cons]
          refine ⟨?_, hpw⟩
          intro a ha
          obtain ⟨r, hr, rfl⟩ := List.mem_map.mp ha
          have := (hall r hr).1
          simp only
          omega
        · intro r hr
          rcases List.mem_cons.mp hr with rfl | hr
          · simp only
            omega
          · have := hall r hr
            omega

/-- On a clock that never moves backward and never shows less than
`lastTimestamp`, no call returns an error. -/
theorem run_sorted_ok : ∀ (n : Nat) (sf sf2 : Snowflake) (clock clock2 : List Nat)
    (rs : List (Nat × Option Error)),
    clock.Pairwise (· ≤ ·) → (∀ x ∈ clock, sf.lastTimestamp ≤ x) →
    run sf clock n = some (rs, sf2, clock2) → ∀ r ∈ rs, r.2 = none := by
  intro n
  induction n with
  | zero =>
    intro sf sf2 clock clock2 rs _ _ h
    simp only [run, Option.some.injEq, Prod.mk.injEq] at h
    obtain ⟨rfl, _, _⟩ := h
    simp
  | succ n ih =>
    intro sf sf2 clock clock2 rs hsorted hlow h
    rw [run_succ] at h
    cases hN : Next sf clock with
    | none => simp [hN] at h
    | some p =>
      obtain ⟨⟨id, e⟩, sf1, clock1⟩ := p
      cases hR : run sf1 clock1 n with
      | none => simp [hN, hR] at h
      | some q =>
        obtain ⟨rs1, sf3, clock3⟩ := q
        simp only [hN, hR, Option.some_bind, Option.map_some', Option.some.injEq,
          Prod.mk.injEq] at h
        obtain ⟨rfl, rfl, rfl⟩ := h
        cases clock with
        | nil => rw [Next_nil] at hN; cases hN
        | cons r rest =>
          have hle : sf.lastTimestamp ≤ r := hlow r (List.mem_cons_self r rest)
          obtain ⟨he, _, _, _, _, hclk⟩ := Next_of_le sf r rest hle _ hN
          simp only at he hclk
          obtain ⟨hr, hrest⟩ := List.pairwise_cons.mp hsorted
          have hnext : clock1.Pairwise (· ≤ ·) ∧ ∀ x ∈ clock1, sf1.lastTimestamp ≤ x := by
            rcases hclk with ⟨h1, h2⟩ | ⟨pre, hpre⟩
            · rw [h1, h2]
              exact ⟨hrest, hr⟩
            · rw [hpre] at hrest
              have h3 := (List.pairwise_append.mp hrest).2.1
              exact ⟨(List.pairwise_cons.mp h3).2, (List.pairwise_cons.mp h3).1⟩
          intro x hx
          rcases List.mem_cons.mp hx with rfl | hx
          · exact he
          · exact ih sf1 sf3 clock1 clock3 rs1 hnext.1 hnext.2 hR x hx

/-- When no call returned an error, the issued identifiers are all the
returned ones. -/
theorem issued_of_ok (rs : List (Nat × Option Error)) (hok : ∀ r ∈ rs, r.2 = none) :
    issued rs = rs.map Prod.fst := by
  induction rs with
  | nil => rfl
  | cons r rs ih =>
    have h1 : r.2 = none := hok r (List.mem_cons_self r rs)
    have h2 := ih (fun x hx => hok x (List.mem_cons_of_mem r hx))
    simp only [issued] at h2 ⊢
    simp [List.filterMap_cons, h1, h2]

/-- What a successful construction returns. -/
theorem NewSnowflake_some (w : Nat) (gen : Snowflake) (h : NewSnowflake w = (some gen, none)) :
    w ≤ 1023 ∧ gen = ⟨0, w, 0⟩ := by
  by_cases hw : w > 1023
  · simp [NewSnowflake, MaxWorkerId_eq, hw] at h
  · simp only [NewSnowflake, MaxWorkerId_eq, hw, Nat.not_lt_zero, or_self, if_false,
      Prod.mk.injEq, Option.some.injEq, and_true] at h
    exact ⟨Nat.le_of_not_lt hw, h.symm⟩

/-- The sequence fields of the identifiers packed from one timestamp and the
sequences `0, ..., n - 1`. -/
theorem map_idSequence_range (t w n : Nat) (hw : w ≤ 1023) (hn : n ≤ 4096) :
    ((List.range n).map fun i => ((Snowflake.uint64 ⟨t, w, i⟩, none) : Nat × Option Error)).map
      (fun r => idSequence r.1) = List.range n := by
  rw [List.map_map]
  have h : ∀ i ∈ List.range n,
      ((fun r : Nat × Option Error => idSequence r.1) ∘
        fun i => ((Snowflake.uint64 ⟨t, w, i⟩, none) : Nat × Option Error)) i = id i := by
    intro i hi
    have hlt := List.mem_range.mp hi
    simp only [Function.comp_def, id]
    exact idSequence_uint64 t w i hw (by omega)
  rw [List.map_congr_left h, List.map_id]

/-- The timestamp fields of the identifiers packed from one timestamp and the
sequences `0, ..., n - 1`. -/
theorem map_idTimestamp_range (t w n : Nat) (hw : w ≤ 1023) (hn : n ≤ 4096) :
    ((List.range n).map fun i => ((Snowflake.uint64 ⟨t, w, i⟩, none) : Nat × Option Error)).map
      (fun r => idTimestamp r.1) = List.replicate n (t % 2 ^ 42) := by
  rw [List.map_map]
  have h : ∀ i ∈ List.range n,
      ((fun r : Nat × Option Error => idTimestamp r.1) ∘
        fun i => ((Snowflake.uint64 ⟨t, w, i⟩, none) : Nat × Option Error)) i =
        (fun _ => t % 2 ^ 42) i := by
    intro i hi
    have hlt := List.mem_range.mp hi
    simp only [Function.comp_def]
    exact idTimestamp_uint64 t w i hw (by omega)
  rw [List.map_congr_left h, List.map_const', List.length_range]

/-! ## What every call preserves -/

/-- A packed state fits in 64 bits as soon as its sequence does. -/
theorem uint64_lt_of_sequence (sf : Snowflake) (hs : sf.sequence < 2 ^ 64) :
    sf.uint64 < 2 ^ 64 := by
  have h0 : 0 < u64 := by decide
  have h1 : (sf.lastTimestamp <<< (WorkerIdBits + SequenceBits)) % u64 < 2 ^ 64 :=
    Nat.mod_lt _ h0
  have h2 : (sf.workerId <<< SequenceBits) % u64 < 2 ^ 64 := Nat.mod_lt _ h0
  exact Nat.or_lt_two_pow (Nat.or_lt_two_pow h1 h2) hs

/-- The three field extractions, arithmetically. -/
theorem idTimestamp_eq (id : Nat) : idTimestamp id = id / 2 ^ 22 := by
  rw [idTimestamp, Nat.shiftRight_eq_div_pow]
  rfl

theorem idWorkerId_eq (id : Nat) : idWorkerId id = id / 2 ^ 12 % 2 ^ 10 := by
  have h : MaxWorkerId = 2 ^ 10 - 1 := by decide
  rw [idWorkerId, h, Nat.and_pow_two_sub_one_eq_mod, Nat.shiftRight_eq_div_pow]
  rfl

theorem idSequence_eq (id : Nat) : idSequence id = id % 2 ^ 12 := by
  have h : MaxSequence = 2 ^ 12 - 1 := by decide
  rw [idSequence, h, Nat.and_pow_two_sub_one_eq_mod]

/-- Splitting a 64-bit value into its three fields and packing them again
gives the value back. -/
theorem uint64_decode (id : Nat) (h : id < 2 ^ 64) :
    Snowflake.uint64 ⟨idTimestamp id, idWorkerId id, idSequence id⟩ = id := by
  rw [idTimestamp_eq, idWorkerId_eq, idSequence_eq,
    uint64_eq_sum _ _ _ (by omega) (by omega)]
  omega

/-- Whatever a call returns, it keeps the worker id, leaves the sequence within
twelve bits, does not lower `lastTimestamp`, and on success returns the packed
new state. -/
theorem Next_frame (sf : Snowflake) (clock : List Nat)
    (out : (Nat × Option Error) × Snowflake × List Nat) (h : Next sf clock = some out) :
    out.2.1.workerId = sf.workerId ∧ out.2.1.sequence ≤ 4095 ∧
      sf.lastTimestamp ≤ out.2.1.lastTimestamp ∧
      (out.1.2 = none → out.1.1 = out.2.1.uint64) := by
  cases clock with
  | nil => rw [Next_nil] at h; cases h
  | cons r rest =>
    by_cases hr : r < sf.lastTimestamp
    · rw [Next_regress sf r rest hr] at h
      cases h
      exact ⟨rfl, Nat.zero_le _, Nat.le_refl _, fun h => by cases h⟩
    · have hle := Nat.le_of_not_lt hr
      obtain ⟨_, hid, hwk, hsq, hcase, _⟩ := Next_of_le sf r rest hle out h
      refine ⟨hwk, hsq, ?_, fun _ => hid⟩
      rcases hcase with ⟨h1, _⟩ | ⟨h1, _⟩ <;> omega

/-- Any number of calls keeps the worker id and the sequence range, does not
lower `lastTimestamp`, and every identifier returned without error is packed
from that worker id and an in-range sequence. -/
theorem run_frame : ∀ (n : Nat) (sf sf2 : Snowflake) (clock clock2 : List Nat)
    (rs : List (Nat × Option Error)),
    run sf clock n = some (rs, sf2, clock2) → sf.sequence ≤ 4095 →
    sf2.workerId = sf.workerId ∧ sf2.sequence ≤ 4095 ∧
      sf.lastTimestamp ≤ sf2.lastTimestamp ∧
      ∀ r ∈ rs, r.2 = none → ∃ t q, q ≤ 4095 ∧ r.1 = Snowflake.uint64 ⟨t, sf.workerId, q⟩ := by
  intro n
  induction n with
  | zero =>
    intro sf sf2 clock clock2 rs h hs
    simp only [run, Option.some.injEq, Prod.mk.injEq] at h
    obtain ⟨rfl, rfl, _⟩ := h
    exact ⟨rfl, hs, Nat.le_refl _, by simp⟩
  | succ n ih =>
    intro sf sf2 clock clock2 rs h hs
    rw [run_succ] at h
    cases hN : Next sf clock with
    | none => simp [hN] at h
    | some p =>
      obtain ⟨⟨id, e⟩, sf1, clock1⟩ := p
      cases hR : run sf1 clock1 n with
      | none => simp [hN, hR] at h
      | some q =>
        obtain ⟨rs1, sf3, clock3⟩ := q
        simp only [hN, hR, Option.some_bind, Option.map_some', Option.some.injEq,
          Prod.mk.injEq] at h
        obtain ⟨rfl, rfl, rfl⟩ := h
        obtain ⟨hwk, hsq, hlt, hid⟩ := Next_frame sf clock _ hN
        simp only at hwk hsq hlt hid
        obtain ⟨hwk2, hsq2, hlt2, hall⟩ := ih sf1 sf3 clock1 clock3 rs1 hR hsq
        refine ⟨by rw [hwk2, hwk], hsq2, Nat.le_trans hlt hlt2, ?_⟩
        intro r hr hnone
        rcases List.mem_cons.mp hr with rfl | hr
        · refine ⟨sf1.lastTimestamp, sf1.sequence, hsq, ?_⟩
          rw [← hwk]
          exact hid hnone
        · rw [← hwk]
          exact hall r hr hnone

/-! ## Claims about one call and about construction -/

/-- C3, evaluated where the code departs from it: on the state with
`lastTimestamp = 5`, `workerId = 0`, `sequence = 1`, the reading 3 makes `Next`
return the error, yet the state it leaves has `sequence = 0`, not 1. -/
theorem C3_regression_resets_sequence :
    Next ⟨5, 0, 1⟩ [3] =
        some ((0, some (Error.invalidTimestamp 3 ⟨5, 0, 0⟩)), ⟨5, 0, 0⟩, []) ∧
      (⟨5, 0, 0⟩ : Snowflake) ≠ ⟨5, 0, 1⟩ := by
  decide

/-- C4, evaluated where the code departs from it: from the state with
`lastTimestamp = 5`, `workerId = 0`, `sequence = 1`, the failing reading 3
followed by the reading 5 returns identifier 20971521 and ends with
`sequence = 1`, whereas the reading 5 alone returns 20971522 and ends with
`sequence = 2`. -/
theorem C4_recovery_differs :
    run ⟨5, 0, 1⟩ [3, 5] 2 =
        some ([(0, some (Error.invalidTimestamp 3 ⟨5, 0, 0⟩)), (20971521, none)],
          ⟨5, 0, 1⟩, []) ∧
      run ⟨5, 0, 1⟩ [5] 1 = some ([(20971522, none)], ⟨5, 0, 2⟩, []) := by
  decide

/-- C5: `Next` returns an error exactly when the reading taken at the start of
the call is below `lastTimestamp`, and then the identifier is 0; such a call
always returns, and a call whose reading is not below `lastTimestamp` returns
without error as soon as the clock still holds a later reading for the
busy-wait. -/
theorem C5_error_iff_regression (sf : Snowflake) (r : Nat) (rest : List Nat) :
    (∀ out, Next sf (r :: rest) = some out →
        (out.1.2 ≠ none ↔ r < sf.lastTimestamp) ∧ (out.1.2 ≠ none → out.1.1 = 0)) ∧
      (r < sf.lastTimestamp → ∃ e sf1, Next sf (r :: rest) = some ((0, some e), sf1, rest)) ∧
      (sf.lastTimestamp ≤ r → (∃ x ∈ rest, sf.lastTimestamp < x) →
        ∃ id sf1 rest1, Next sf (r :: rest) = some ((id, none), sf1, rest1)) := by
  refine ⟨?_, ?_, ?_⟩
  · intro out h
    by_cases hr : r < sf.lastTimestamp
    · rw [Next_regress sf r rest hr] at h
      cases h
      simp [hr]
    · have hle : sf.lastTimestamp ≤ r := Nat.le_of_not_lt hr
      have h1 := (Next_of_le sf r rest hle out h).1
      simp [h1, hr]
  · intro hr
    exact ⟨_, _, Next_regress sf r rest hr⟩
  · intro hle hex
    rcases Nat.lt_or_eq_of_le hle with hlt | heq
    · exact ⟨_, _, _, Next_forward sf r rest hlt⟩
    · subst heq
      by_cases hw : ((sf.sequence + 1) % u32) &&& MaxSequence = 0
      · obtain ⟨t, rest1, ht⟩ := tilNextMillis_isSome sf.lastTimestamp rest hex
        exact ⟨_, _, _, Next_wrap_some sf t rest rest1 hw ht⟩
      · exact ⟨_, _, _, Next_same sf rest hw⟩

/-- Witness of C5 on the state (5, 0, 4095): the reading 3 fails, the reading 5
wraps the sequence, waits and succeeds. -/
theorem C5_error_iff_regression_witness :
    (∃ e sf1, Next ⟨5, 0, 4095⟩ [3, 6] = some ((0, some e), sf1, [6])) ∧
      (∃ id sf1 rest1, Next ⟨5, 0, 4095⟩ [5, 6] = some ((id, none), sf1, rest1)) :=
  ⟨(C5_error_iff_regression ⟨5, 0, 4095⟩ 3 [6]).2.1 (by decide),
    (C5_error_iff_regression ⟨5, 0, 4095⟩ 5 [6]).2.2 (by decide) ⟨6, by decide, by decide⟩⟩

/-- C6: `NewSnowflake w` returns an error exactly when `w > 1023`, and then no
generator; it succeeds for 0 and 1023 and fails for 1024. -/
theorem C6_construction_validation (w : Nat) :
    ((NewSnowflake w).2 ≠ none ↔ w > 1023) ∧
      ((NewSnowflake w).1 = none ↔ w > 1023) ∧
      (NewSnowflake 0).2 = none ∧ (NewSnowflake 1023).2 = none ∧
      (NewSnowflake 1024).2 = some (Error.invalidWorkerId 1024) := by
  refine ⟨?_, ?_, by decide, by decide, by decide⟩
  · by_cases h : w > 1023 <;> simp [NewSnowflake, MaxWorkerId_eq, h]
  · by_cases h : w > 1023 <;> simp [NewSnowflake, MaxWorkerId_eq, h]

/-- C7: whenever `NewSnowflake w` returns no error, it returns a generator with
`lastTimestamp = 0`, `sequence = 0` and `workerId = w`. -/
theorem C7_fresh_generator (w : Nat) (h : (NewSnowflake w).2 = none) :
    ∃ gen, (NewSnowflake w).1 = some gen ∧
      gen.lastTimestamp = 0 ∧ gen.sequence = 0 ∧ gen.workerId = w := by
  by_cases hw : w > 1023
  · simp [NewSnowflake, MaxWorkerId_eq, hw] at h
  · exact ⟨⟨0, w, 0⟩, by simp [NewSnowflake, MaxWorkerId_eq, hw], rfl, rfl, rfl⟩

/-- Witness of C7 at worker id 1023. -/
theorem C7_fresh_generator_witness :
    ∃ gen, (NewSnowflake 1023).1 = some gen ∧
      gen.lastTimestamp = 0 ∧ gen.sequence = 0 ∧ gen.workerId = 1023 :=
  C7_fresh_generator 1023 (by decide)

/-- C8: with `sequence <= 4095` and a reading `now >= lastTimestamp`, the case
`now = lastTimestamp` with `sequence = 4095` apart, `Next` returns without
error, reads the clock once, sets `lastTimestamp` to `now`, sets `sequence` to
`sequence + 1` when `now = lastTimestamp` and to 0 otherwise, and returns
`(lastTimestamp << 22) | (workerId << 12) | sequence` of the updated state. -/
theorem C8_step_without_wrap (sf : Snowflake) (now : Nat) (rest : List Nat)
    (hs : sf.sequence ≤ 4095) (hnow : sf.lastTimestamp ≤ now)
    (hex : ¬ (now = sf.lastTimestamp ∧ sf.sequence = 4095)) :
    Next sf (now :: rest) =
      some ((((now <<< 22) % 2 ^ 64) ||| ((sf.workerId <<< 12) % 2 ^ 64) |||
            (if now = sf.lastTimestamp then sf.sequence + 1 else 0), none),
        ⟨now, sf.workerId, if now = sf.lastTimestamp then sf.sequence + 1 else 0⟩, rest) := by
  rcases Nat.lt_or_eq_of_le hnow with hlt | heq
  · rw [Next_forward sf now rest hlt]
    simp [Nat.ne_of_gt hlt, Snowflake.uint64, WorkerIdBits, SequenceBits, u64]
  · subst heq
    have hlt : sf.sequence < 4095 := by
      have : sf.sequence ≠ 4095 := fun h => hex ⟨rfl, h⟩
      omega
    have hinc := seq_incr_eq sf.sequence hlt
    have hne : ((sf.sequence + 1) % u32) &&& MaxSequence ≠ 0 := by rw [hinc]; omega
    rw [Next_same sf rest hne, hinc]
    simp [Snowflake.uint64, WorkerIdBits, SequenceBits, u64]

/-- Witness of C8: the state (5, 3, 7) with the reading 5 and with the
reading 9. -/
theorem C8_step_without_wrap_witness :
    Next ⟨5, 3, 7⟩ [5] = some ((20983816, none), ⟨5, 3, 8⟩, []) ∧
      Next ⟨5, 3, 7⟩ [9] = some ((37761024, none), ⟨9, 3, 0⟩, []) :=
  ⟨C8_step_without_wrap ⟨5, 3, 7⟩ 5 [] (by decide) (by decide) (by decide),
    C8_step_without_wrap ⟨5, 3, 7⟩ 9 [] (by decide) (by decide) (by decide)⟩

/-- C9: with `sequence = 4095` and a reading equal to `lastTimestamp`, as long
as the readings polled afterwards hold one above `lastTimestamp`, `Next` skips
the polled readings that are not above it, takes the first that is as the new
`lastTimestamp`, sets `sequence` to 0 and returns, without error, the
identifier packed from that timestamp, the worker id and sequence 0. -/
theorem C9_sequence_exhaustion (sf : Snowflake) (polls : List Nat)
    (hs : sf.sequence = 4095) (hex : ∃ y ∈ polls, sf.lastTimestamp < y) :
    ∃ pre x post, polls = pre ++ x :: post ∧ (∀ y ∈ pre, y ≤ sf.lastTimestamp) ∧
      sf.lastTimestamp < x ∧
      Next sf (sf.lastTimestamp :: polls) =
        some ((((x <<< 22) % 2 ^ 64) ||| ((sf.workerId <<< 12) % 2 ^ 64) ||| 0, none),
          ⟨x, sf.workerId, 0⟩, post) := by
  obtain ⟨x, post, hx⟩ := tilNextMillis_isSome sf.lastTimestamp polls hex
  obtain ⟨hlt, pre, hpre, hall⟩ := tilNextMillis_some _ _ _ _ hx
  have hw : ((sf.sequence + 1) % u32) &&& MaxSequence = 0 := by rw [hs]; exact seq_incr_wrap
  refine ⟨pre, x, post, hpre, hall, hlt, ?_⟩
  rw [Next_wrap_some sf x polls post hw hx]
  simp [Snowflake.uint64, WorkerIdBits, SequenceBits, u64]

/-- Witness of C9: the state (5, 3, 4095) with the reading 5 and the polled
readings 4, 5, 8, 9 adopts 8. -/
theorem C9_sequence_exhaustion_witness :
    ∃ pre x post, [4, 5, 8, 9] = pre ++ x :: post ∧ (∀ y ∈ pre, y ≤ 5) ∧ 5 < x ∧
      Next ⟨5, 3, 4095⟩ (5 :: [4, 5, 8, 9]) =
        some ((((x <<< 22) % 2 ^ 64) ||| ((3 <<< 12) % 2 ^ 64) ||| 0, none), ⟨x, 3, 0⟩, post) :=
  C9_sequence_exhaustion ⟨5, 3, 4095⟩ [4, 5, 8, 9] rfl ⟨8, by decide, by decide⟩

/-! ## Claims about successive calls -/

/-- C1 as stated fails, in two ways.  A generator with worker id 0 and the
readings 5, 5, 3, 5 issues 20971521 twice, the failing call on the reading 3
having reset the sequence.  The same generator on the readings 1 and
`2^42 + 1` issues 4194304 twice, the timestamp being cut to 42 bits. -/
theorem C1_duplicate_identifiers :
    NewSnowflake 0 = (some ⟨0, 0, 0⟩, none) ∧
      (run ⟨0, 0, 0⟩ [5, 5, 3, 5] 4).map (fun o => issued o.1) =
        some [20971520, 20971521, 20971521] ∧
      (run ⟨0, 0, 0⟩ [1, 4398046511105] 2).map (fun o => issued o.1) =
        some [4194304, 4194304] := by
  decide

/-- C1, amended: for a generator built by `NewSnowflake`, readings all below
`2^42` and successive calls of `Next` none of which returns an error, the
identifiers returned are pairwise distinct. -/
theorem C1_unique_without_regression (w n : Nat) (gen sf2 : Snowflake)
    (clock clock2 : List Nat) (rs : List (Nat × Option Error))
    (hgen : NewSnowflake w = (some gen, none))
    (hc : ∀ x ∈ clock, x < 2 ^ 42)
    (hrun : run gen clock n = some (rs, sf2, clock2))
    (hok : ∀ r ∈ rs, r.2 = none) :
    (issued rs).Nodup := by
  obtain ⟨hw, rfl⟩ := NewSnowflake_some w gen hgen
  have h := (run_ok_increasing n ⟨0, w, 0⟩ sf2 clock clock2 rs hw (by simp) (by simp) hc hrun
    hok).1
  rw [issued_of_ok rs hok]
  exact h.imp (fun hab => Nat.ne_of_lt hab)

/-- Witness of C1: worker id 3 and the readings 5, 5, 7. -/
theorem C1_unique_without_regression_witness :
    run ⟨0, 3, 0⟩ [5, 5, 7] 3 =
        some ([(20983808, none), (20983809, none), (29372416, none)], ⟨7, 3, 0⟩, []) ∧
      (issued [(20983808, none), (20983809, none), (29372416, none)]).Nodup :=
  ⟨by decide,
    C1_unique_without_regression 3 3 ⟨0, 3, 0⟩ ⟨7, 3, 0⟩ [5, 5, 7] []
      [(20983808, none), (20983809, none), (29372416, none)]
      (by decide) (by decide) (by decide) (by decide)⟩

/-- C2: for a generator built by `NewSnowflake` and a clock whose readings,
those polled by the busy-wait included, never decrease and are all below
`2^42`, no call of `Next` returns an error and every identifier returned is
strictly greater than all those returned before it, all being below `2^64`. -/
theorem C2_monotonic (w n : Nat) (gen sf2 : Snowflake)
    (clock clock2 : List Nat) (rs : List (Nat × Option Error))
    (hgen : NewSnowflake w = (some gen, none))
    (hsorted : clock.Pairwise (· ≤ ·))
    (hc : ∀ x ∈ clock, x < 2 ^ 42)
    (hrun : run gen clock n = some (rs, sf2, clock2)) :
    (∀ r ∈ rs, r.2 = none) ∧ (rs.map Prod.fst).Pairwise (· < ·) ∧ ∀ r ∈ rs, r.1 < 2 ^ 64 := by
  obtain ⟨hw, rfl⟩ := NewSnowflake_some w gen hgen
  have hok := run_sorted_ok n ⟨0, w, 0⟩ sf2 clock clock2 rs hsorted (fun x _ => Nat.zero_le x)
    hrun
  have h := run_ok_increasing n ⟨0, w, 0⟩ sf2 clock clock2 rs hw (by simp) (by simp) hc hrun hok
  exact ⟨hok, h.1, fun r hr => (h.2 r hr).2⟩

/-- Witness of C2: worker id 3 and the readings 0, 5, 5, 7. -/
theorem C2_monotonic_witness :
    run ⟨0, 3, 0⟩ [0, 5, 5, 7] 4 =
        some ([(12289, none), (20983808, none), (20983809, none), (29372416, none)],
          ⟨7, 3, 0⟩, []) ∧
      (([(12289, none), (20983808, none), (20983809, none), (29372416, none)] :
        List (Nat × Option Error)).map Prod.fst).Pairwise (· < ·) :=
  ⟨by decide,
    (C2_monotonic 3 4 ⟨0, 3, 0⟩ ⟨7, 3, 0⟩ [0, 5, 5, 7] []
      [(12289, none), (20983808, none), (20983809, none), (29372416, none)]
      (by decide) (by decide) (by decide) (by decide)).2.1⟩

/-- C10 as stated fails, in two ways.  At `T = 0` a fresh generator with worker
id 0 takes the first reading for a repeat of its initial `lastTimestamp`: the
first identifier has sequence field 1, the wrap comes at the 4096th call, and
the 4097th call, reading 0 again, returns the error.  At `T = 2^42` the
identifiers carry the timestamp field 0, not `T`. -/
theorem C10_rollover_fails :
    NewSnowflake 0 = (some ⟨0, 0, 0⟩, none) ∧
      run ⟨0, 0, 0⟩ (List.replicate 4095 0 ++ [0, 1, 0]) 4097 =
        some ((List.range 4095).map (fun i => (Snowflake.uint64 ⟨0, 0, 0 + 1 + i⟩, none)) ++
            [(4194304, none), (0, some (Error.invalidTimestamp 0 ⟨1, 0, 0⟩))],
          ⟨1, 0, 0⟩, []) ∧
      idSequence (Snowflake.uint64 ⟨0, 0, 0 + 1 + 0⟩) = 1 ∧
      run ⟨0, 0, 0⟩ (List.replicate 4097 4398046511104 ++ ([] ++ 4398046511105 :: [])) 4097 =
        some ((List.range 4096).map (fun i => (Snowflake.uint64 ⟨4398046511104, 0, i⟩, none)) ++
            [(Snowflake.uint64 ⟨4398046511105, 0, 0⟩, none)],
          ⟨4398046511105, 0, 0⟩, []) ∧
      idTimestamp (Snowflake.uint64 ⟨4398046511104, 0, 0⟩) = 0 := by
  refine ⟨by decide, ?_, by decide, ?_, by decide⟩
  · have hn : (4097 : Nat) = 4095 + 2 := rfl
    have h2 : run ⟨0, 0, 0 + 4095⟩ [0, 1, 0] 2 =
        some ([(4194304, none), (0, some (Error.invalidTimestamp 0 ⟨1, 0, 0⟩))],
          ⟨1, 0, 0⟩, []) := by decide
    rw [hn, run_add 4095 2, run_same 0 0 [0, 1, 0] 4095 0 (by omega)]
    simp only [Option.some_bind, h2, Option.map_some']
  · exact run_rollover ⟨0, 0, 0⟩ 4398046511104 4398046511105 [] [] (by decide)
      (by simp) (by decide)

/-- C10, amended: for a worker id `w <= 1023` and a millisecond `T` with
`0 < T`, a generator freshly built by `NewSnowflake w` and called 4097 times,
every call reading `T` first and the last one then polling readings of which
the first above `T` is `T2`, with `T2 < 2^42`, returns no error; the sequence
fields of the identifiers are 0, 1, ..., 4095, 0 in that order, the timestamp
field of the first 4096 is `T` and that of the last is `T2`, above `T`. -/
theorem C10_rollover (w T T2 : Nat) (pre post : List Nat)
    (hw : w ≤ 1023) (hT : 0 < T) (hpre : ∀ y ∈ pre, y ≤ T) (hlt : T < T2)
    (hT2 : T2 < 2 ^ 42) :
    ∃ gen rs, NewSnowflake w = (some gen, none) ∧
      run gen (List.replicate 4097 T ++ (pre ++ T2 :: post)) 4097 =
        some (rs, ⟨T2, w, 0⟩, post) ∧
      (∀ r ∈ rs, r.2 = none) ∧
      rs.map (fun r => idSequence r.1) = List.range 4096 ++ [0] ∧
      rs.map (fun r => idTimestamp r.1) = List.replicate 4096 T ++ [T2] ∧ T < T2 := by
  have hgen : NewSnowflake w = (some ⟨0, w, 0⟩, none) := by
    have : ¬ w > 1023 := Nat.not_lt.mpr hw
    simp [NewSnowflake, MaxWorkerId_eq, this]
  refine ⟨⟨0, w, 0⟩, _, hgen, run_rollover ⟨0, w, 0⟩ T T2 pre post hT hpre hlt, ?_, ?_, ?_, hlt⟩
  · intro r hr
    rcases List.mem_append.mp hr with h | h
    · obtain ⟨i, _, rfl⟩ := List.mem_map.mp h
      rfl
    · rw [List.mem_singleton.mp h]
  · rw [List.map_append, map_idSequence_range T w 4096 hw (Nat.le_refl _)]
    simp only [List.map_cons, List.map_nil]
    rw [idSequence_uint64 T2 w 0 hw (by omega)]
  · rw [List.map_append, map_idTimestamp_range T w 4096 hw (Nat.le_refl _)]
    simp only [List.map_cons, List.map_nil]
    rw [idTimestamp_uint64 T2 w 0 hw (by omega), Nat.mod_eq_of_lt hT2,
      Nat.mod_eq_of_lt (by omega : T < 2 ^ 42)]

/-- Witness of C10: worker id 3, `T = 5`, the busy-wait polling 5 and then 6. -/
theorem C10_rollover_witness :
    ∃ gen rs, NewSnowflake 3 = (some gen, none) ∧
      run gen (List.replicate 4097 5 ++ ([5] ++ 6 :: [])) 4097 = some (rs, ⟨6, 3, 0⟩, []) ∧
      (∀ r ∈ rs, r.2 = none) ∧
      rs.map (fun r => idSequence r.1) = List.range 4096 ++ [0] ∧
      rs.map (fun r => idTimestamp r.1) = List.replicate 4096 5 ++ [6] ∧ 5 < 6 :=
  C10_rollover 3 5 6 [5] [] (by decide) (by decide) (by decide) (by decide) (by decide)

/-! ## Claims about the bit fields, the frame and the default worker id -/

/-- C11: every identifier `id` returned by a successful `Next` is reproduced
exactly by decoding it into `id >> 22`, `(id >> 12) & 1023` and `id & 4095` and
packing those again as `(timestamp << 22) | (workerId << 12) | sequence`. -/
theorem C11_field_roundtrip (sf sf1 : Snowflake) (clock clock1 : List Nat) (id : Nat)
    (h : Next sf clock = some ((id, none), sf1, clock1)) :
    (((id >>> 22) <<< 22) % 2 ^ 64) ||| ((((id >>> 12) &&& 1023) <<< 12) % 2 ^ 64) |||
      (id &&& 4095) = id := by
  obtain ⟨_, hsq, _, hid⟩ := Next_frame sf clock _ h
  simp only at hsq hid
  have hlt : id < 2 ^ 64 := by
    rw [hid trivial]
    exact uint64_lt_of_sequence sf1 (by omega)
  have hd := uint64_decode id hlt
  simp only [Snowflake.uint64, idTimestamp, idWorkerId, idSequence, MaxWorkerId_eq,
    MaxSequence_eq, WorkerIdBits, SequenceBits, u64] at hd
  exact hd

/-- Witness of C11: the identifier 20983816 returned on the state (5, 3, 7)
with the reading 5. -/
theorem C11_field_roundtrip_witness :
    (((20983816 >>> 22) <<< 22) % 2 ^ 64) |||
      ((((20983816 >>> 12) &&& 1023) <<< 12) % 2 ^ 64) ||| (20983816 &&& 4095) = 20983816 :=
  C11_field_roundtrip ⟨5, 3, 7⟩ ⟨5, 3, 8⟩ [5] [] 20983816 (by decide)

/-- C12: for `timestamp < 2^42`, `workerId <= 1023` and `sequence <= 4095` the
packed identifier decodes back to exactly these three values, so two in-range
triples that pack to the same identifier are equal. -/
theorem C12_lossless_packing (t w q : Nat) (ht : t < 2 ^ 42) (hw : w ≤ 1023)
    (hq : q ≤ 4095) :
    Snowflake.uint64 ⟨t, w, q⟩ >>> 22 = t ∧
      (Snowflake.uint64 ⟨t, w, q⟩ >>> 12) &&& 1023 = w ∧
      Snowflake.uint64 ⟨t, w, q⟩ &&& 4095 = q ∧
      ∀ t2 w2 q2 : Nat, t2 < 2 ^ 42 → w2 ≤ 1023 → q2 ≤ 4095 →
        Snowflake.uint64 ⟨t2, w2, q2⟩ = Snowflake.uint64 ⟨t, w, q⟩ →
        t2 = t ∧ w2 = w ∧ q2 = q := by
  have h1 := idTimestamp_uint64 t w q hw hq
  have h2 := idWorkerId_uint64 t w q hw hq
  have h3 := idSequence_uint64 t w q hw hq
  rw [Nat.mod_eq_of_lt ht] at h1
  simp only [idTimestamp, WorkerIdBits, SequenceBits] at h1
  simp only [idWorkerId, SequenceBits, MaxWorkerId_eq] at h2
  simp only [idSequence, MaxSequence_eq] at h3
  refine ⟨h1, h2, h3, ?_⟩
  intro t2 w2 q2 ht2 hw2 hq2 he
  rw [uint64_eq_sum t2 w2 q2 hw2 hq2, uint64_eq_sum t w q hw hq, Nat.mod_eq_of_lt ht,
    Nat.mod_eq_of_lt ht2] at he
  omega

/-- Witness of C12 at the triple (5, 3, 7). -/
theorem C12_lossless_packing_witness :
    Snowflake.uint64 ⟨5, 3, 7⟩ >>> 22 = 5 ∧
      (Snowflake.uint64 ⟨5, 3, 7⟩ >>> 12) &&& 1023 = 3 ∧
      Snowflake.uint64 ⟨5, 3, 7⟩ &&& 4095 = 7 :=
  have h := C12_lossless_packing 5 3 7 (by decide) (by decide) (by decide)
  ⟨h.1, h.2.1, h.2.2.1⟩

/-- C13: no call of `Next` changes `workerId`, whether it succeeds or fails,
and every identifier that a generator built by `NewSnowflake w` returns without
error has `(id >> 12) & 1023 = w`. -/
theorem C13_workerId_immutable (w n : Nat) (gen sf2 : Snowflake)
    (clock clock2 : List Nat) (rs : List (Nat × Option Error))
    (hgen : NewSnowflake w = (some gen, none))
    (hrun : run gen clock n = some (rs, sf2, clock2)) :
    (∀ (sf : Snowflake) (c : List Nat) (out : (Nat × Option Error) × Snowflake × List Nat),
        Next sf c = some out → out.2.1.workerId = sf.workerId) ∧
      sf2.workerId = w ∧ ∀ r ∈ rs, r.2 = none → (r.1 >>> 12) &&& 1023 = w := by
  obtain ⟨hw, rfl⟩ := NewSnowflake_some w gen hgen
  obtain ⟨hwk, _, _, hall⟩ := run_frame n ⟨0, w, 0⟩ sf2 clock clock2 rs hrun (by simp)
  refine ⟨fun sf c out h => (Next_frame sf c out h).1, hwk, ?_⟩
  intro r hr hnone
  obtain ⟨t, q, hq, hid⟩ := hall r hr hnone
  have h2 := idWorkerId_uint64 t w q hw hq
  simp only [idWorkerId, SequenceBits, MaxWorkerId_eq] at h2
  rw [hid]
  exact h2

/-- Witness of C13: worker id 3 and the readings 5, 5, 3, 7, the third call
failing. -/
theorem C13_workerId_immutable_witness :
    (⟨7, 3, 0⟩ : Snowflake).workerId = 3 ∧
      ∀ r ∈ [(20983808, none), (20983809, none),
          (0, some (Error.invalidTimestamp 3 ⟨5, 3, 0⟩)), (29372416, none)],
        r.2 = none → (r.1 >>> 12) &&& 1023 = 3 :=
  (C13_workerId_immutable 3 4 ⟨0, 3, 0⟩ ⟨7, 3, 0⟩ [5, 5, 3, 7] []
    [(20983808, none), (20983809, none), (0, some (Error.invalidTimestamp 3 ⟨5, 3, 0⟩)),
      (29372416, none)] (by decide) (by decide)).2

/-- C15: for every value `h` of the hash or of the random fallback, the worker
id `(h mod MaxWorkerId) & MaxWorkerId` that `DefaultWorkId` derives from it is
at most 1023, `NewSnowflake` accepts it, and `Default` returns a generator and
no error. -/
theorem C15_default_workerId_valid (h : Nat) :
    DefaultWorkId h = ((h % 2 ^ 32) % 1023) &&& 1023 ∧ DefaultWorkId h ≤ 1023 ∧
      (NewSnowflake (DefaultWorkId h)).2 = none ∧
      Default h = (some ⟨0, DefaultWorkId h, 0⟩, none) := by
  have he : DefaultWorkId h = ((h % 2 ^ 32) % 1023) &&& 1023 := by
    simp only [DefaultWorkId, MaxWorkerId_eq, u32]
    congr 1
    omega
  have hle : DefaultWorkId h ≤ 1023 := by
    rw [he]
    exact Nat.and_le_right
  have hn : ¬ DefaultWorkId h > 1023 := Nat.not_lt.mpr hle
  refine ⟨he, hle, ?_, ?_⟩
  · simp [NewSnowflake, MaxWorkerId_eq, hn]
  · simp [Default, NewSnowflake, MaxWorkerId_eq, hn]

/-- C16 as stated fails: a generator with worker id 0 that reads `2^41`
returns `2^63`, whose timestamp field `id >> 22` is `2^41`, whereas `2^41`
cut to 41 bits is 0. -/
theorem C16_timestamp_field_not_41_bits :
    NewSnowflake 0 = (some ⟨0, 0, 0⟩, none) ∧
      Next ⟨0, 0, 0⟩ [2199023255552] =
        some ((9223372036854775808, none), ⟨2199023255552, 0, 0⟩, []) ∧
      Snowflake.uint64 ⟨2199023255552, 0, 0⟩ >>> 22 = 2199023255552 ∧
      2199023255552 % 2 ^ 41 = 0 := by
  decide

/-- C16, amended: in every state that a generator built by `NewSnowflake`
reaches through calls of `Next`, the timestamp field of the packed identifier
is `lastTimestamp` cut to 42 bits, `id >> 22 = lastTimestamp mod 2^42`. -/
theorem C16_timestamp_field_42_bits (w n : Nat) (gen sf2 : Snowflake)
    (clock clock2 : List Nat) (rs : List (Nat × Option Error))
    (hgen : NewSnowflake w = (some gen, none))
    (hrun : run gen clock n = some (rs, sf2, clock2)) :
    sf2.uint64 >>> 22 = sf2.lastTimestamp % 2 ^ 42 := by
  obtain ⟨hw, rfl⟩ := NewSnowflake_some w gen hgen
  obtain ⟨hwk, hsq, _, _⟩ := run_frame n ⟨0, w, 0⟩ sf2 clock clock2 rs hrun (by simp)
  obtain ⟨t, w2, q⟩ := sf2
  simp only at hwk hsq
  subst hwk
  have h1 := idTimestamp_uint64 t w2 q hw hsq
  simp only [idTimestamp, WorkerIdBits, SequenceBits] at h1
  exact h1

/-- Witness of C16: worker id 0 and the single reading `2^42 + 5`, kept as
5 in the identifier. -/
theorem C16_timestamp_field_42_bits_witness :
    Snowflake.uint64 ⟨4398046511109, 0, 0⟩ >>> 22 = 4398046511109 % 2 ^ 42 :=
  C16_timestamp_field_42_bits 0 1 ⟨0, 0, 0⟩ ⟨4398046511109, 0, 0⟩ [4398046511109] []
    [(20971520, none)] (by decide) (by decide)

/-- C17: in every state that a generator built by `NewSnowflake` reaches
through calls of `Next`, successful or failing, on any clock readings,
`sequence <= 4095` and `workerId <= 1023`, and the sequence and worker-id
fields of the packed identifier are exactly these two values. -/
theorem C17_field_ranges (w n : Nat) (gen sf2 : Snowflake)
    (clock clock2 : List Nat) (rs : List (Nat × Option Error))
    (hgen : NewSnowflake w = (some gen, none))
    (hrun : run gen clock n = some (rs, sf2, clock2)) :
    sf2.sequence ≤ 4095 ∧ sf2.workerId ≤ 1023 ∧
      sf2.uint64 &&& 4095 = sf2.sequence ∧ (sf2.uint64 >>> 12) &&& 1023 = sf2.workerId := by
  obtain ⟨hw, rfl⟩ := NewSnowflake_some w gen hgen
  obtain ⟨hwk, hsq, _, _⟩ := run_frame n ⟨0, w, 0⟩ sf2 clock clock2 rs hrun (by simp)
  obtain ⟨t, w2, q⟩ := sf2
  simp only at hwk hsq
  subst hwk
  have h2 := idWorkerId_uint64 t w2 q hw hsq
  have h3 := idSequence_uint64 t w2 q hw hsq
  simp only [idWorkerId, SequenceBits, MaxWorkerId_eq] at h2
  simp only [idSequence, MaxSequence_eq] at h3
  exact ⟨hsq, hw, h3, h2⟩

/-- Witness of C17: worker id 1023 and the readings 5, 5, 3, 7, the third call
failing. -/
theorem C17_field_ranges_witness :
    (⟨7, 1023, 0⟩ : Snowflake).sequence ≤ 4095 ∧ (⟨7, 1023, 0⟩ : Snowflake).workerId ≤ 1023 ∧
      Snowflake.uint64 ⟨7, 1023, 0⟩ &&& 4095 = 0 ∧
      (Snowflake.uint64 ⟨7, 1023, 0⟩ >>> 12) &&& 1023 = 1023 :=
  C17_field_ranges 1023 4 ⟨0, 1023, 0⟩ ⟨7, 1023, 0⟩ [5, 5, 3, 7] []
    [(25161728, none), (25161729, none), (0, some (Error.invalidTimestamp 3 ⟨5, 1023, 0⟩)),
      (33550336, none)] (by decide) (by decide)

/-- C18: whatever the state and the clock readings, the `lastTimestamp` left by
a call of `Next` is at least the one before it, whether the call succeeds or
returns an error; a failing call leaves it as it was. -/
theorem C18_lastTimestamp_never_decreases (sf : Snowflake) (clock : List Nat)
    (out : (Nat × Option Error) × Snowflake × List Nat) (h : Next sf clock = some out) :
    sf.lastTimestamp ≤ out.2.1.lastTimestamp ∧
      (out.1.2 ≠ none → out.2.1.lastTimestamp = sf.lastTimestamp) := by
  refine ⟨(Next_frame sf clock out h).2.2.1, ?_⟩
  intro herr
  cases clock with
  | nil => rw [Next_nil] at h; cases h
  | cons r rest =>
    by_cases hr : r < sf.lastTimestamp
    · rw [Next_regress sf r rest hr] at h
      cases h
      rfl
    · exact absurd (Next_of_le sf r rest (Nat.le_of_not_lt hr) out h).1 herr

/-- Witness of C18: the state (5, 3, 4095) with the readings 5, 4, 9, where the
busy-wait skips 4 and adopts 9. -/
theorem C18_lastTimestamp_never_decreases_witness :
    (5 : Nat) ≤ 9 ∧
      (((37761024, none) : Nat × Option Error).2 ≠ none →
        (⟨9, 3, 0⟩ : Snowflake).lastTimestamp = 5) :=
  C18_lastTimestamp_never_decreases ⟨5, 3, 4095⟩ [5, 4, 9]
    ((37761024, none), ⟨9, 3, 0⟩, []) (by decide)

/-- C19: for every value `h` of the hash or of the random fallback, the worker
id that `DefaultWorkId` derives from it is at most 1022, so it is never 1023,
a worker id that `NewSnowflake` accepts. -/
theorem C19_default_never_top (h : Nat) :
    DefaultWorkId h ≤ 1022 ∧ DefaultWorkId h ≠ 1023 ∧
      NewSnowflake 1023 = (some ⟨0, 1023, 0⟩, none) := by
  have hle : DefaultWorkId h ≤ 1022 := by
    have h1 : DefaultWorkId h ≤ ((h % u32) % MaxWorkerId) % u32 := Nat.and_le_left
    have h2 : ((h % u32) % MaxWorkerId) % u32 ≤ 1022 := by
      simp only [MaxWorkerId_eq, u32]
      omega
    exact Nat.le_trans h1 h2
  exact ⟨hle, by omega, by decide⟩

end SnowflakeGo
